import Mathlib

/-!
Shallow embedding of `src/Code/main.py`, a pandas pipeline that loads
tab-separated files from a directory tree into one unified table and computes
per-miRNA mean / sample variance / standard deviation of the
`reads_per_million_miRNA_mapped` column, bracketed by resource-usage sampling.

Modelling conventions:
* A dataframe is a list of rows.  A row carries the two columns the program
  reads: the grouping key `miRNA_ID` (string) and the value column
  `reads_per_million_miRNA_mapped`.  The value column entry is `Option ℚ`,
  where `none` models pandas' NaN marker (the representation a non-numeric /
  missing entry takes in the numeric column, per numpy coercion), and
  `some q` a finite numeric entry; exact rationals stand in for floats.
* pandas reductions use their default `skipna=True`, `ddof=1` semantics:
  `Series.mean` averages the non-NaN entries and is NaN when there are none;
  `Series.var` divides the sum of squared deviations by (count − 1) and is
  NaN when fewer than two non-NaN entries exist; `Series.std` is the square
  root of the variance.
* `Series.unique` returns distinct values in order of first appearance.
* Boolean-mask selection `dataset[dataset["miRNA_ID"] == k]` is `List.filter`,
  preserving row order.
* `os.walk` output is modelled as the sequence of directory listings it
  yields, each listing a list of (file name, parsed rows) entries; `load_data`
  consumes exactly that sequence.
-/

/-- A row of the unified table: the two columns used by the program.
`reads_per_million_miRNA_mapped = none` models a NaN entry. -/
structure Row where
  miRNA_ID : String
  reads_per_million_miRNA_mapped : Option ℚ
deriving DecidableEq, Repr

/-- A dataframe, as the ordered list of its rows. -/
abbrev Table := List Row

/-- `Series.unique`: the distinct elements of a list in order of first
appearance (pandas: "uniques are returned in order of appearance"). -/
def uniqueKeys : List String → List String
  | [] => []
  | k :: ks => k :: uniqueKeys (ks.filter (fun x => x ≠ k))
termination_by l => l.length
decreasing_by
  exact Nat.lt_succ_of_le (List.length_filter_le _ _)

/-- `dataset[dataset["miRNA_ID"] == k]`: boolean-mask row selection,
preserving row order. -/
def subset (dataset : Table) (k : String) : Table :=
  dataset.filter (fun r => r.miRNA_ID == k)

/-- The value-column entries of a table, in row order. -/
def colValues (dataset : Table) : List (Option ℚ) :=
  dataset.map Row.reads_per_million_miRNA_mapped

/-- The non-NaN entries of a series (pandas reductions skip NaN by default). -/
def numericEntries (xs : List (Option ℚ)) : List ℚ :=
  xs.filterMap id

/-- `Series.mean` with default `skipna=True`: the arithmetic mean of the
non-NaN entries, NaN (`none`) when no entry is numeric. -/
def seriesMean (xs : List (Option ℚ)) : Option ℚ :=
  let vs := numericEntries xs
  if vs.length = 0 then none else some (vs.sum / vs.length)

/-- `Series.var` with default `ddof=1, skipna=True`: sum of squared deviations
from the mean of the non-NaN entries divided by (count − 1); NaN (`none`) when
fewer than two entries are numeric. -/
def seriesVar (xs : List (Option ℚ)) : Option ℚ :=
  let vs := numericEntries xs
  if vs.length < 2 then none
  else some ((vs.map (fun x => (x - vs.sum / vs.length) ^ 2)).sum / ((vs.length : ℚ) - 1))

/-- `Series.std`: the square root of `Series.var` (same NaN condition). -/
noncomputable def seriesStd (xs : List (Option ℚ)) : Option ℝ :=
  (seriesVar xs).map (fun v => Real.sqrt (v : ℝ))

/-- One output row of the aggregation: the dict appended per distinct key in
`calculate_average_and_variance_mirna_expression`. -/
structure GroupSummary where
  miRNA_ID : String
  average_expression : Option ℚ
  variance_expression : Option ℚ
  standard_deviation : Option ℝ

/-- The summary the loop body builds for key `k` from the value-column entries
`vals` of that key's subset. -/
noncomputable def summarize (k : String) (vals : List (Option ℚ)) : GroupSummary :=
  { miRNA_ID := k
    average_expression := seriesMean vals
    variance_expression := seriesVar vals
    standard_deviation := seriesStd vals }

/-- `calculate_average_and_variance_mirna_expression` (src/Code/main.py:73-117,
statistics loop only; resource sampling is modelled separately and does not
touch this list): for each distinct `miRNA_ID` in first-seen order, filter the
dataset to that key's subset and reduce its value column to mean, sample
variance and standard deviation. -/
noncomputable def calculate_average_and_variance_mirna_expression
    (dataset : Table) : List GroupSummary :=
  (uniqueKeys (dataset.map Row.miRNA_ID)).map
    (fun k => summarize k (colValues (subset dataset k)))

/-- One file as `os.walk` presents it and `pd.read_csv` parses it: its name
and its parsed rows. -/
structure FileEntry where
  name : String
  rows : Table
deriving DecidableEq, Repr

/-- One directory listing yielded by `os.walk` (its `files` component; the
`root` path and `dirs` component are not used by `load_data` beyond joining
the path it reads from). -/
abbrev DirListing := List FileEntry

/-- The full sequence of directory listings `os.walk(base_path)` yields, in
traversal order. -/
abbrev WalkOutput := List DirListing

/-- The dataframes `load_data`'s inner loop appends for one directory: every
file except the two reserved sidecar names, parsed. -/
def dirDataframes (files : DirListing) : List Table :=
  files.filterMap (fun f =>
    if f.name == "annotations.txt" then none
    else if f.name == "MANIFEST.txt" then none
    else some f.rows)

/-- `load_data` (src/Code/main.py:8-37) over the sequence of directory
listings `os.walk` yields: skip directories with no files, skip the two
sidecar filenames, parse every other file, and concatenate all parsed
dataframes; raise `ValueError` when no dataframe was accumulated. -/
def load_data (w : WalkOutput) : Except String Table :=
  let dataframes := ((w.filter (fun files => !files.isEmpty)).map dirDataframes).flatten
  if dataframes.isEmpty then
    Except.error "Could not find any matching files, wrong directory"
  else
    Except.ok dataframes.flatten

/-- A file `load_data` parses: its name is neither reserved sidecar name. -/
def isEligibleFile (f : FileEntry) : Bool :=
  !(f.name == "annotations.txt") && !(f.name == "MANIFEST.txt")

/-- The non-sidecar files of the whole tree, in traversal order. -/
def eligibleFiles (w : WalkOutput) : List FileEntry :=
  w.flatten.filter isEligibleFile

/-- Replace a sidecar-named file's content with the empty table; leave any
other file untouched. -/
def scrubFile (f : FileEntry) : FileEntry :=
  if isEligibleFile f then f else { f with rows := [] }

/-- Scrub every sidecar-named file's content in the tree: two walk outputs
agree up to sidecar file contents exactly when their scrubs are equal. -/
def scrubSidecars (w : WalkOutput) : WalkOutput :=
  w.map (fun files => files.map scrubFile)

/-- A point-in-time resource snapshot: `ps.cpu_percent`, `ps.virtual_memory().percent`,
`ps.disk_usage('/').percent` (src/Code/main.py:89-91,105-107). -/
structure ResourceSample where
  cpu_percent : ℚ
  ram_percent : ℚ
  disk_percent : ℚ
deriving DecidableEq, Repr

/-- The three printed usage deltas (src/Code/main.py:109-111). -/
structure ResourceDelta where
  cpu_usage : ℚ
  ram_usage : ℚ
  disk_usage : ℚ
deriving DecidableEq, Repr

/-- `calculate_average_and_variance_mirna_expression` with its resource
sampling made explicit: the snapshots taken before and after the statistics
loop are inputs, the printed delta is an extra output, and the returned
dataframe is built by the loop alone (src/Code/main.py:89-117). -/
noncomputable def calculate_with_sampling (dataset : Table)
    (before after : ResourceSample) : List GroupSummary × ResourceDelta :=
  let mirna_statistics := calculate_average_and_variance_mirna_expression dataset
  ({ cpu_usage := after.cpu_percent - before.cpu_percent
     ram_usage := after.ram_percent - before.ram_percent
     disk_usage := after.disk_percent - before.disk_percent : ResourceDelta }
   |> fun d => (mirna_statistics, d))

/-- The statistics loop with the `dataset` variable threaded through as
state: each iteration reads `dataset` (building the boolean-mask subset and
its reductions, all non-mutating pandas operations) and passes it on
unchanged, mirroring the loop of src/Code/main.py:93-103. -/
noncomputable def statisticsLoop : List String → Table → Table × List GroupSummary
  | [], dataset => (dataset, [])
  | k :: ks, dataset =>
    let mirna_subset := subset dataset k
    let row := summarize k (colValues mirna_subset)
    let rest := statisticsLoop ks dataset
    (rest.1, row :: rest.2)

/-- The aggregation as a state transformer on its input table: runs the
statistics loop over the first-seen distinct keys, returning the final state
of `dataset` together with the freshly built result list. -/
noncomputable def calculate_st (dataset : Table) : Table × List GroupSummary :=
  statisticsLoop (uniqueKeys (dataset.map Row.miRNA_ID)) dataset

/-- Single-pass grouped reduction, modelled from the spec's words (§9): insert
one row's key and value into a key-indexed accumulator, appending the value to
an existing key's bucket or opening a new bucket at the end. -/
def insertRow (acc : List (String × List (Option ℚ))) (k : String)
    (v : Option ℚ) : List (String × List (Option ℚ)) :=
  match acc with
  | [] => [(k, [v])]
  | (k', vs) :: rest =>
    if k' = k then (k', vs ++ [v]) :: rest
    else (k', vs) :: insertRow rest k v

/-- Single-pass grouped reduction, modelled from the spec's words (§9): one
traversal of the table building an index from key to accumulated values. -/
def groupIndex (dataset : Table) : List (String × List (Option ℚ)) :=
  dataset.foldl (fun acc r => insertRow acc r.miRNA_ID r.reads_per_million_miRNA_mapped) []

/-- Single-pass aggregation, modelled from the spec's words (§9): build the
key-to-accumulator index in one traversal, then reduce each bucket. -/
noncomputable def singlePassAggregate (dataset : Table) : List GroupSummary :=
  (groupIndex dataset).map (fun p => summarize p.1 p.2)

/-! ### Properties of `uniqueKeys` (pandas `Series.unique`) -/

theorem mem_uniqueKeys (l : List String) (a : String) : a ∈ uniqueKeys l ↔ a ∈ l := by
  induction l using uniqueKeys.induct with
  | case1 => simp [uniqueKeys]
  | case2 k ks ih =>
    rw [uniqueKeys, List.mem_cons, List.mem_cons, ih, List.mem_filter]
    by_cases hak : a = k <;> simp [hak]

theorem uniqueKeys_nodup (l : List String) : (uniqueKeys l).Nodup := by
  induction l using uniqueKeys.induct with
  | case1 => simp [uniqueKeys]
  | case2 k ks ih =>
    rw [uniqueKeys]
    refine List.nodup_cons.mpr ⟨?_, ih⟩
    intro hmem
    rw [mem_uniqueKeys, List.mem_filter] at hmem
    simp at hmem

theorem uniqueKeys_sublist (l : List String) : (uniqueKeys l).Sublist l := by
  induction l using uniqueKeys.induct with
  | case1 => simp [uniqueKeys]
  | case2 k ks ih =>
    rw [uniqueKeys]
    exact List.Sublist.cons₂ k (ih.trans (List.filter_sublist ks))

/-- Positions of first occurrence are preserved in relative order when a list
is filtered: a filter is an order-preserving selection. -/
theorem indexOf_lt_of_filter_indexOf_lt (p : String → Bool) (l : List String)
    (a b : String) (ha : a ∈ l.filter p) (hb : b ∈ l.filter p)
    (h : (l.filter p).indexOf a < (l.filter p).indexOf b) :
    l.indexOf a < l.indexOf b := by
  induction l with
  | nil => simp at ha
  | cons c l ih =>
    by_cases hpc : p c
    · rw [List.filter_cons_of_pos hpc] at ha hb h
      by_cases hac : a = c
      · subst hac
        have hbc : b ≠ a := by
          intro hba; subst hba; simp [List.indexOf_cons_self] at h
        rw [List.indexOf_cons_self]
        rw [List.indexOf_cons_ne _ (fun hc => hbc hc.symm)]
        exact Nat.succ_pos _
      · by_cases hbc : b = c
        · subst hbc
          rw [List.indexOf_cons_self] at h
          exact absurd h (Nat.not_lt_zero _)
        · rw [List.indexOf_cons_ne _ (fun hc => hac hc.symm),
            List.indexOf_cons_ne _ (fun hc => hbc hc.symm)] at h
          rw [List.indexOf_cons_ne _ (fun hc => hac hc.symm),
            List.indexOf_cons_ne _ (fun hc => hbc hc.symm)]
          have ha' : a ∈ l.filter p := by
            rcases List.mem_cons.mp ha with h1 | h1
            · exact absurd h1 hac
            · exact h1
          have hb' : b ∈ l.filter p := by
            rcases List.mem_cons.mp hb with h1 | h1
            · exact absurd h1 hbc
            · exact h1
          exact Nat.succ_lt_succ (ih ha' hb' (Nat.lt_of_succ_lt_succ h))
    · rw [List.filter_cons_of_neg hpc] at ha hb h
      have hac : a ≠ c := by
        intro hc; subst hc
        exact hpc (List.of_mem_filter ha)
      have hbc : b ≠ c := by
        intro hc; subst hc
        exact hpc (List.of_mem_filter hb)
      rw [List.indexOf_cons_ne _ (fun hc => hac hc.symm),
        List.indexOf_cons_ne _ (fun hc => hbc hc.symm)]
      exact Nat.succ_lt_succ (ih ha hb h)

/-- `uniqueKeys` lists the distinct elements sorted by position of first
occurrence: first-seen order. -/
theorem uniqueKeys_firstSeen (l : List String) :
    (uniqueKeys l).Pairwise (fun a b => l.indexOf a < l.indexOf b) := by
  induction l using uniqueKeys.induct with
  | case1 => simp [uniqueKeys]
  | case2 k ks ih =>
    rw [uniqueKeys]
    refine List.pairwise_cons.mpr ⟨?_, ?_⟩
    · intro b hb
      have hb' : b ∈ ks.filter (fun x => x ≠ k) := (mem_uniqueKeys _ _).mp hb
      have hbk : b ≠ k := by simpa using (List.mem_filter.mp hb').2
      rw [List.indexOf_cons_self, List.indexOf_cons_ne _ (fun hc => hbk hc.symm)]
      exact Nat.succ_pos _
    · refine List.Pairwise.imp_of_mem ?_ ih
      intro a b hma hmb hab
      have ha' : a ∈ ks.filter (fun x => x ≠ k) := (mem_uniqueKeys _ _).mp hma
      have hb' : b ∈ ks.filter (fun x => x ≠ k) := (mem_uniqueKeys _ _).mp hmb
      have hak : a ≠ k := by simpa using (List.mem_filter.mp ha').2
      have hbk : b ≠ k := by simpa using (List.mem_filter.mp hb').2
      rw [List.indexOf_cons_ne _ (fun hc => hak hc.symm),
        List.indexOf_cons_ne _ (fun hc => hbk hc.symm)]
      exact Nat.succ_lt_succ (indexOf_lt_of_filter_indexOf_lt _ _ _ _ ha' hb' hab)

/-! ### Locating a key's output row -/

theorem find?_beq_self {l : List String} {k : String} (hk : k ∈ l) :
    l.find? (fun x => x == k) = some k := by
  induction l with
  | nil => simp at hk
  | cons a l ih =>
    by_cases hak : a = k
    · subst hak; simp [List.find?_cons]
    · have hk' : k ∈ l := by
        rcases List.mem_cons.mp hk with h | h
        · exact absurd h.symm hak
        · exact h
      simp [List.find?_cons, hak, ih hk']

/-- The output row the aggregation produces for a key present in the table:
the summary of that key's subset. -/
theorem calculate_find? (dataset : Table) (k : String)
    (hk : k ∈ dataset.map Row.miRNA_ID) :
    (calculate_average_and_variance_mirna_expression dataset).find?
        (fun s => s.miRNA_ID == k)
      = some (summarize k (colValues (subset dataset k))) := by
  unfold calculate_average_and_variance_mirna_expression
  rw [List.find?_map]
  have hk' : k ∈ uniqueKeys (dataset.map Row.miRNA_ID) := (mem_uniqueKeys _ _).mpr hk
  have hfun : ((fun s => s.miRNA_ID == k) ∘
      fun k' => summarize k' (colValues (subset dataset k'))) = fun x => x == k := by
    funext x
    simp [summarize]
  rw [hfun, find?_beq_self hk']
  rfl

/-! ### Properties of the loader -/

/-- The dataframes parsed from one directory are exactly the non-sidecar
files' contents, in listing order. -/
theorem dirDataframes_eq (files : DirListing) :
    dirDataframes files = (files.filter isEligibleFile).map FileEntry.rows := by
  induction files with
  | nil => rfl
  | cons f fs ih =>
    show List.filterMap _ (f :: fs) = _
    rw [List.filterMap_cons, List.filter_cons]
    by_cases h1 : f.name = "annotations.txt"
    · have he : isEligibleFile f = false := by simp [isEligibleFile, h1]
      simp only [h1, he]
      exact ih
    · by_cases h2 : f.name = "MANIFEST.txt"
      · have he : isEligibleFile f = false := by simp [isEligibleFile, h2]
        simp only [h2, he]
        have h1' : (f.name == "annotations.txt") = false := by simp [h1]
        simp only [h1', Bool.false_eq_true, if_false]
        exact ih
      · have he : isEligibleFile f = true := by simp [isEligibleFile, h1, h2]
        have h1' : (f.name == "annotations.txt") = false := by simp [h1]
        have h2' : (f.name == "MANIFEST.txt") = false := by simp [h2]
        simp only [h1', h2', he, Bool.false_eq_true, if_false, if_true]
        rw [List.map_cons]
        exact congrArg _ ih

/-- The accumulated dataframe list of `load_data` is the eligible files'
contents, in traversal order; the defensive skip of directories with no files
drops nothing. -/
theorem load_dataframes_eq (w : WalkOutput) :
    ((w.filter (fun files => !files.isEmpty)).map dirDataframes).flatten
      = (eligibleFiles w).map FileEntry.rows := by
  induction w with
  | nil => rfl
  | cons d w ih =>
    by_cases hd : d.isEmpty
    · have hnil : d = [] := List.isEmpty_iff.mp hd
      subst hnil
      simpa [eligibleFiles, List.filter_cons] using ih
    · have hstep : (d :: w).filter (fun files => !files.isEmpty)
          = d :: w.filter (fun files => !files.isEmpty) := by
        simp [List.filter_cons, hd]

      rw [hstep, List.map_cons, List.flatten_cons, dirDataframes_eq, ih]
      unfold eligibleFiles
      rw [List.flatten_cons, List.filter_append, List.map_append]

/-- Canonical form of `load_data`: error exactly when no eligible file
exists, otherwise the concatenation of the eligible files' rows. -/
theorem load_data_eq (w : WalkOutput) :
    load_data w
      = if (eligibleFiles w).isEmpty then
          Except.error "Could not find any matching files, wrong directory"
        else Except.ok ((eligibleFiles w).map FileEntry.rows).flatten := by
  unfold load_data
  rw [load_dataframes_eq]
  by_cases h : (eligibleFiles w).isEmpty
  · have hnil : eligibleFiles w = [] := List.isEmpty_iff.mp h
    simp [hnil]
  · have hne : eligibleFiles w ≠ [] := fun hc => h (by simp [hc])
    have : ¬ ((eligibleFiles w).map FileEntry.rows).isEmpty := by
      simpa [List.isEmpty_iff] using hne
    simp [h, this]

theorem scrubFile_name (f : FileEntry) : (scrubFile f).name = f.name := by
  unfold scrubFile
  split <;> rfl

/-- Scrubbing sidecar contents changes no eligible file. -/
theorem eligibleFiles_scrub (w : WalkOutput) :
    eligibleFiles (scrubSidecars w) = eligibleFiles w := by
  unfold eligibleFiles scrubSidecars
  rw [← List.map_flatten]
  generalize w.flatten = l
  induction l with
  | nil => rfl
  | cons f fs ih =>
    rw [List.map_cons, List.filter_cons, List.filter_cons]
    have hn : isEligibleFile (scrubFile f) = isEligibleFile f := by
      unfold isEligibleFile
      rw [scrubFile_name]
    by_cases h : isEligibleFile f
    · have hf : scrubFile f = f := by
        unfold scrubFile
        rw [if_pos h]
      rw [hf, h, if_pos rfl, if_pos rfl]
      exact congrArg _ ih
    · have h' : isEligibleFile f = false := Bool.eq_false_iff.mpr h
      rw [hn, h']
      simpa using ih

/-! ### The statistics loop as a state transformer -/

theorem statisticsLoop_fst (ks : List String) (dataset : Table) :
    (statisticsLoop ks dataset).1 = dataset := by
  induction ks with
  | nil => rfl
  | cons k ks ih => simp [statisticsLoop, ih]

theorem statisticsLoop_snd (ks : List String) (dataset : Table) :
    (statisticsLoop ks dataset).2
      = ks.map (fun k => summarize k (colValues (subset dataset k))) := by
  induction ks with
  | nil => rfl
  | cons k ks ih => simp [statisticsLoop, ih]

/-! ### Claim theorems -/

/-- C1: for every input table containing the key and value columns, the
aggregation produces exactly one output row per distinct key (its key list is
the distinct keys, duplicate-free, containing a key iff the table does), and
the rows appear in first-seen order: consecutive output keys have strictly
increasing positions of first appearance in the table. -/
theorem C1_one_row_per_key_first_seen_order (dataset : Table) :
    (calculate_average_and_variance_mirna_expression dataset).map
        GroupSummary.miRNA_ID
      = uniqueKeys (dataset.map Row.miRNA_ID)
    ∧ ((calculate_average_and_variance_mirna_expression dataset).map
        GroupSummary.miRNA_ID).Nodup
    ∧ (∀ k, k ∈ (calculate_average_and_variance_mirna_expression dataset).map
          GroupSummary.miRNA_ID
        ↔ k ∈ dataset.map Row.miRNA_ID)
    ∧ ((calculate_average_and_variance_mirna_expression dataset).map
        GroupSummary.miRNA_ID).Pairwise
        (fun a b => (dataset.map Row.miRNA_ID).indexOf a
          < (dataset.map Row.miRNA_ID).indexOf b) := by
  have hmap : (calculate_average_and_variance_mirna_expression dataset).map
      GroupSummary.miRNA_ID = uniqueKeys (dataset.map Row.miRNA_ID) := by
    unfold calculate_average_and_variance_mirna_expression
    rw [List.map_map]
    have hcomp : (GroupSummary.miRNA_ID ∘
        fun k => summarize k (colValues (subset dataset k))) = id := by
      funext x
      rfl
    rw [hcomp, List.map_id]
  refine ⟨hmap, ?_, ?_, ?_⟩
  · rw [hmap]; exact uniqueKeys_nodup _
  · intro k; rw [hmap]; exact mem_uniqueKeys _ _
  · rw [hmap]; exact uniqueKeys_firstSeen _

/-- C8: the resource sampling bracketing the aggregation has no effect on the
returned table — two runs observing different snapshots return the same
per-key statistics — and the reported delta is the elementwise subtraction of
the before-snapshot from the after-snapshot. -/
theorem C8_sampling_no_effect_delta_subtraction (dataset : Table)
    (before after before' after' : ResourceSample) :
    (calculate_with_sampling dataset before after).1
        = (calculate_with_sampling dataset before' after').1
    ∧ (calculate_with_sampling dataset before after).2
        = { cpu_usage := after.cpu_percent - before.cpu_percent
            ram_usage := after.ram_percent - before.ram_percent
            disk_usage := after.disk_percent - before.disk_percent } :=
  ⟨rfl, rfl⟩

/-- C10: the aggregation leaves its input table unchanged — run as a state
transformer on the `dataset` variable, the loop's final state is the input
table, and the returned table is the freshly built summary list. -/
theorem C10_input_table_unchanged (dataset : Table) :
    (calculate_st dataset).1 = dataset
    ∧ (calculate_st dataset).2
        = calculate_average_and_variance_mirna_expression dataset := by
  constructor
  · exact statisticsLoop_fst _ _
  · rw [calculate_st, statisticsLoop_snd]
    rfl

/-- C3: for every non-empty set of well-formed input files under the root,
`load_data` returns a unified table whose row count is the sum of the row
counts of all non-skipped files in the tree. -/
theorem C3_row_count_is_sum_over_files (w : WalkOutput)
    (hne : eligibleFiles w ≠ []) :
    ∃ rows, load_data w = Except.ok rows
      ∧ rows.length = ((eligibleFiles w).map (fun f => f.rows.length)).sum := by
  refine ⟨((eligibleFiles w).map FileEntry.rows).flatten, ?_, ?_⟩
  · rw [load_data_eq]
    have h : (eligibleFiles w).isEmpty = false := by
      simpa [List.isEmpty_iff] using hne
    simp [h]
  · rw [List.length_flatten, List.map_map]
    rfl

/-- C3 at a concrete tree: one directory holding one two-row file. -/
theorem C3_witness :
    ∃ rows,
      load_data [[⟨"a.tsv", [⟨"X", some 1⟩, ⟨"Y", some 2⟩]⟩]] = Except.ok rows
      ∧ rows.length
        = ((eligibleFiles [[⟨"a.tsv", [⟨"X", some 1⟩, ⟨"Y", some 2⟩]⟩]]).map
            (fun f => f.rows.length)).sum :=
  C3_row_count_is_sum_over_files _ (by simp [eligibleFiles, isEligibleFile])

/-- C4: no row of a file named with either reserved sidecar filename is ever
included in the unified table, regardless of content or location: the result
of `load_data` is unchanged under any change of sidecar file contents, and a
successful load is exactly the concatenation of the eligible files' rows. -/
theorem C4_sidecar_content_never_included (w₁ w₂ : WalkOutput)
    (h : scrubSidecars w₁ = scrubSidecars w₂) :
    load_data w₁ = load_data w₂
    ∧ ∀ rows, load_data w₁ = Except.ok rows →
        rows = ((eligibleFiles w₁).map FileEntry.rows).flatten := by
  constructor
  · rw [load_data_eq, load_data_eq,
      ← eligibleFiles_scrub w₁, ← eligibleFiles_scrub w₂, h]
  · intro rows hrows
    rw [load_data_eq] at hrows
    by_cases hemp : (eligibleFiles w₁).isEmpty
    · simp [hemp] at hrows
    · simp [hemp] at hrows
      exact hrows.symm

/-- C4 at concrete trees differing only in an annotations sidecar's rows. -/
theorem C4_witness :
    load_data [[⟨"annotations.txt", [⟨"garbage", some 7⟩]⟩, ⟨"a.tsv", [⟨"X", some 1⟩]⟩]]
      = load_data [[⟨"annotations.txt", []⟩, ⟨"a.tsv", [⟨"X", some 1⟩]⟩]]
    ∧ ∀ rows,
        load_data [[⟨"annotations.txt", [⟨"garbage", some 7⟩]⟩, ⟨"a.tsv", [⟨"X", some 1⟩]⟩]]
          = Except.ok rows →
        rows = ((eligibleFiles
            [[⟨"annotations.txt", [⟨"garbage", some 7⟩]⟩, ⟨"a.tsv", [⟨"X", some 1⟩]⟩]]).map
            FileEntry.rows).flatten :=
  C4_sidecar_content_never_included _ _ (by rfl)

/-- C5: `load_data` raises the no-data error exactly when the tree holds zero
eligible files, and raises no error when at least one eligible file exists. -/
theorem C5_error_iff_no_eligible_file (w : WalkOutput) :
    (∃ msg, load_data w = Except.error msg) ↔ eligibleFiles w = [] := by
  rw [load_data_eq]
  by_cases h : (eligibleFiles w).isEmpty
  · simp [h, List.isEmpty_iff.mp h]
  · have hne : eligibleFiles w ≠ [] := fun hc => by simp [hc] at h
    simp [h, hne]

/-! ### Size-one groups -/

theorem seriesMean_singleton (o : Option ℚ) : seriesMean [o] = o := by
  cases o with
  | none => rfl
  | some v => simp [seriesMean, numericEntries]

theorem seriesVar_singleton (o : Option ℚ) : seriesVar [o] = none := by
  cases o with
  | none => rfl
  | some v => simp [seriesVar, numericEntries]

/-- C6: a key whose group has exactly one member gets a NaN variance and NaN
standard deviation, a mean equal to the group's single value, and every other
key still gets its normal summary row (no error is raised). -/
theorem C6_singleton_group_nan_variance (dataset : Table) (k : String) (r : Row)
    (h1 : subset dataset k = [r]) :
    (calculate_average_and_variance_mirna_expression dataset).find?
        (fun s => s.miRNA_ID == k)
      = some { miRNA_ID := k
               average_expression := r.reads_per_million_miRNA_mapped
               variance_expression := none
               standard_deviation := none }
    ∧ ∀ k', k' ∈ dataset.map Row.miRNA_ID →
        (calculate_average_and_variance_mirna_expression dataset).find?
            (fun s => s.miRNA_ID == k')
          = some (summarize k' (colValues (subset dataset k'))) := by
  have hr : r ∈ subset dataset k := by
    rw [h1]
    exact List.mem_singleton.mpr rfl
  have hr' := List.mem_filter.mp hr
  have hrk : r.miRNA_ID = k := by simpa using hr'.2
  have hk : k ∈ dataset.map Row.miRNA_ID := List.mem_map.mpr ⟨r, hr'.1, hrk⟩
  constructor
  · rw [calculate_find? dataset k hk, h1]
    simp [summarize, colValues, seriesMean_singleton, seriesVar_singleton, seriesStd]
  · intro k' hk'
    exact calculate_find? dataset k' hk'

/-- C6 at a concrete table: the key Y occurs once, with value 20. -/
theorem C6_witness :
    (calculate_average_and_variance_mirna_expression
        [⟨"X", some 10⟩, ⟨"X", some 30⟩, ⟨"Y", some 20⟩]).find?
        (fun s => s.miRNA_ID == "Y")
      = some { miRNA_ID := "Y"
               average_expression := some 20
               variance_expression := none
               standard_deviation := none } :=
  (C6_singleton_group_nan_variance _ "Y" ⟨"Y", some 20⟩ (by rfl)).1

/-! ### Groups of all-numeric entries -/

theorem numericEntries_map_some (qs : List ℚ) :
    numericEntries (qs.map some) = qs := by
  simp [numericEntries, List.filterMap_map]

theorem seriesMean_map_some (qs : List ℚ) (h : qs ≠ []) :
    seriesMean (qs.map some) = some (qs.sum / qs.length) := by
  have hlen : qs.length ≠ 0 := by simpa [List.length_eq_zero] using h
  simp [seriesMean, numericEntries_map_some, hlen]

theorem seriesVar_map_some (qs : List ℚ) (h : 2 ≤ qs.length) :
    seriesVar (qs.map some)
      = some ((qs.map (fun x => (x - qs.sum / qs.length) ^ 2)).sum
          / ((qs.length : ℚ) - 1)) := by
  have hlt : ¬ qs.length < 2 := by omega
  simp [seriesVar, numericEntries_map_some, hlt]

/-- C2: for a key whose group holds `n ≥ 2` numeric values, the aggregation
returns the arithmetic mean, the sample variance (sum of squared deviations
from the mean over `n − 1`) and its square root as standard deviation. -/
theorem C2_mean_sample_variance_stddev (dataset : Table) (k : String)
    (qs : List ℚ) (hvals : colValues (subset dataset k) = qs.map some)
    (hn : 2 ≤ qs.length) :
    (calculate_average_and_variance_mirna_expression dataset).find?
        (fun s => s.miRNA_ID == k)
      = some { miRNA_ID := k
               average_expression := some (qs.sum / qs.length)
               variance_expression := some
                 ((qs.map (fun x => (x - qs.sum / qs.length) ^ 2)).sum
                   / ((qs.length : ℚ) - 1))
               standard_deviation := some (Real.sqrt
                 (((qs.map (fun x => (x - qs.sum / qs.length) ^ 2)).sum
                   / ((qs.length : ℚ) - 1) : ℚ))) } := by
  have hlen : (subset dataset k).length = qs.length := by
    have hc := congrArg List.length hvals
    simpa [colValues] using hc
  have hsub_ne : subset dataset k ≠ [] := by
    intro hnil
    rw [hnil] at hlen
    simp at hlen
    omega
  obtain ⟨r, hr⟩ := List.exists_mem_of_ne_nil _ hsub_ne
  have hr' := List.mem_filter.mp hr
  have hrk : r.miRNA_ID = k := by simpa using hr'.2
  have hk : k ∈ dataset.map Row.miRNA_ID := List.mem_map.mpr ⟨r, hr'.1, hrk⟩
  have hq_ne : qs ≠ [] := by
    intro hc
    subst hc
    simp at hn
  rw [calculate_find? dataset k hk, hvals]
  unfold summarize seriesStd
  rw [seriesMean_map_some qs hq_ne, seriesVar_map_some qs hn]
  rfl

/-- C2 at the hand-computed example: the group X holds the values [1, 2, 3],
so mean = 2, variance = 1, stddev = 1. -/
theorem C2_witness :
    (calculate_average_and_variance_mirna_expression
        [⟨"X", some 1⟩, ⟨"X", some 2⟩, ⟨"X", some 3⟩]).find?
        (fun s => s.miRNA_ID == "X")
      = some { miRNA_ID := "X"
               average_expression := some 2
               variance_expression := some 1
               standard_deviation := some 1 } := by
  have h := C2_mean_sample_variance_stddev
    [⟨"X", some 1⟩, ⟨"X", some 2⟩, ⟨"X", some 3⟩] "X" [1, 2, 3] (by rfl) (by norm_num)
  rw [h]
  have hvar : (([1, 2, 3] : List ℚ).map
      (fun x => (x - ([1, 2, 3] : List ℚ).sum / (([1, 2, 3] : List ℚ).length : ℚ)) ^ 2)).sum
        / ((([1, 2, 3] : List ℚ).length : ℚ) - 1) = 1 := by
    norm_num [List.sum_cons, List.sum_nil]
  have hmean : ([1, 2, 3] : List ℚ).sum / ((([1, 2, 3] : List ℚ).length : ℚ)) = 2 := by
    norm_num [List.sum_cons, List.sum_nil]
  norm_num [GroupSummary.mk.injEq, hvar, List.sum_cons, List.sum_nil, Real.sqrt_one]

/-! ### NaN entries inside a group -/

theorem seriesMean_eq_none_iff (xs : List (Option ℚ)) :
    seriesMean xs = none ↔ numericEntries xs = [] := by
  unfold seriesMean
  by_cases h : (numericEntries xs).length = 0
  · simp [h, List.length_eq_zero.mp h]
  · have hne : numericEntries xs ≠ [] := by
      intro hc
      exact h (by simp [hc])
    simp [h, hne]

theorem seriesVar_eq_none_iff (xs : List (Option ℚ)) :
    seriesVar xs = none ↔ (numericEntries xs).length < 2 := by
  unfold seriesVar
  by_cases h : (numericEntries xs).length < 2 <;> simp [h]

theorem seriesStd_eq_none_iff (xs : List (Option ℚ)) :
    seriesStd xs = none ↔ (numericEntries xs).length < 2 := by
  rw [← seriesVar_eq_none_iff]
  unfold seriesStd
  cases seriesVar xs <;> simp

/-- C7 as stated is false on the code: in the group X = [1, 2, NaN] the value
column contains a non-numeric entry, yet the group's returned mean is 3/2 and
its variance 1/2 — not not-a-number. -/
theorem C7_counterexample :
    (∃ r ∈ ([⟨"X", some 1⟩, ⟨"X", some 2⟩, ⟨"X", none⟩] : Table),
        r.miRNA_ID = "X" ∧ r.reads_per_million_miRNA_mapped = none)
    ∧ ((calculate_average_and_variance_mirna_expression
          [⟨"X", some 1⟩, ⟨"X", some 2⟩, ⟨"X", none⟩]).find?
          (fun s => s.miRNA_ID == "X")).map GroupSummary.average_expression
        = some (some (3 / 2))
    ∧ ((calculate_average_and_variance_mirna_expression
          [⟨"X", some 1⟩, ⟨"X", some 2⟩, ⟨"X", none⟩]).find?
          (fun s => s.miRNA_ID == "X")).map GroupSummary.variance_expression
        = some (some (1 / 2)) := by
  refine ⟨⟨⟨"X", none⟩, by simp, rfl, rfl⟩, ?_, ?_⟩ <;>
  · rw [calculate_find? _ "X" (by simp)]
    simp [summarize, colValues, subset, seriesMean, seriesVar, numericEntries]
    norm_num

/-- C7 (amended): NaN (non-numeric) value-column entries do not abort the
aggregation — every key still receives its summary row — but they are skipped
rather than propagated: a group's statistics are computed over its numeric
entries alone, so the mean is NaN only when the group has no numeric entry,
and variance/stddev are NaN only when it has fewer than two; each group's row
depends only on that group's own entries, leaving other groups unaffected. -/
theorem C7_nan_entries_skipped_not_propagated (dataset : Table) (k : String)
    (hk : k ∈ dataset.map Row.miRNA_ID) :
    ∃ s, (calculate_average_and_variance_mirna_expression dataset).find?
        (fun s => s.miRNA_ID == k) = some s
      ∧ (s.average_expression = none
          ↔ numericEntries (colValues (subset dataset k)) = [])
      ∧ (s.variance_expression = none
          ↔ (numericEntries (colValues (subset dataset k))).length < 2)
      ∧ (s.standard_deviation = none
          ↔ (numericEntries (colValues (subset dataset k))).length < 2)
      ∧ (numericEntries (colValues (subset dataset k)) ≠ [] →
          s.average_expression
            = some ((numericEntries (colValues (subset dataset k))).sum
                / (numericEntries (colValues (subset dataset k))).length)) := by
  refine ⟨summarize k (colValues (subset dataset k)),
    calculate_find? dataset k hk, ?_, ?_, ?_, ?_⟩
  · exact seriesMean_eq_none_iff _
  · exact seriesVar_eq_none_iff _
  · exact seriesStd_eq_none_iff _
  · intro hne
    have hlen : (numericEntries (colValues (subset dataset k))).length ≠ 0 := by
      simpa [List.length_eq_zero] using hne
    simp [summarize, seriesMean, hlen]

/-- C7 (amended) at the concrete group X = [1, 2, NaN]. -/
theorem C7_witness :
    ∃ s, (calculate_average_and_variance_mirna_expression
        [⟨"X", some 1⟩, ⟨"X", some 2⟩, ⟨"X", none⟩]).find?
        (fun s => s.miRNA_ID == "X") = some s
      ∧ (s.average_expression = none
          ↔ numericEntries (colValues (subset
              [⟨"X", some 1⟩, ⟨"X", some 2⟩, ⟨"X", none⟩] "X")) = [])
      ∧ (s.variance_expression = none
          ↔ (numericEntries (colValues (subset
              [⟨"X", some 1⟩, ⟨"X", some 2⟩, ⟨"X", none⟩] "X"))).length < 2)
      ∧ (s.standard_deviation = none
          ↔ (numericEntries (colValues (subset
              [⟨"X", some 1⟩, ⟨"X", some 2⟩, ⟨"X", none⟩] "X"))).length < 2)
      ∧ (numericEntries (colValues (subset
            [⟨"X", some 1⟩, ⟨"X", some 2⟩, ⟨"X", none⟩] "X")) ≠ [] →
          s.average_expression
            = some ((numericEntries (colValues (subset
                [⟨"X", some 1⟩, ⟨"X", some 2⟩, ⟨"X", none⟩] "X"))).sum
                / (numericEntries (colValues (subset
                    [⟨"X", some 1⟩, ⟨"X", some 2⟩, ⟨"X", none⟩] "X"))).length)) :=
  C7_nan_entries_skipped_not_propagated
    [⟨"X", some 1⟩, ⟨"X", some 2⟩, ⟨"X", none⟩] "X" (by simp)

/-! ### Single-pass grouped reduction agrees with per-key rescanning -/

theorem uniqueKeys_append_singleton (x : String) (l : List String) :
    uniqueKeys (l ++ [x])
      = if x ∈ l then uniqueKeys l else uniqueKeys l ++ [x] := by
  induction l using uniqueKeys.induct with
  | case1 => simp [uniqueKeys]
  | case2 k ks ih =>
    rw [List.cons_append, uniqueKeys, List.filter_append]
    by_cases hx : x = k
    · subst hx
      rw [show List.filter (fun y => y ≠ x) [x] = [] from by simp,
        List.append_nil, if_pos (List.mem_cons_self x ks), uniqueKeys]
    · have hmem : x ∈ ks.filter (fun y => y ≠ k) ↔ x ∈ ks := by
        simp [List.mem_filter, hx]
      rw [show List.filter (fun y => y ≠ k) [x] = [x] from by simp [hx]]
      rw [ih]
      by_cases hxs : x ∈ ks
      · rw [if_pos (hmem.mpr hxs), if_pos (by simp [hxs]), uniqueKeys]
      · rw [if_neg (fun hc => hxs (hmem.mp hc)),
          if_neg (by simp [hxs, hx]), uniqueKeys, List.cons_append]

theorem subset_append_singleton (t : Table) (r : Row) (k : String) :
    subset (t ++ [r]) k
      = subset t k ++ (if r.miRNA_ID == k then [r] else []) := by
  simp only [subset, List.filter_append, List.filter_cons, List.filter_nil]

theorem subset_eq_nil_of_not_mem (t : Table) (k : String)
    (h : k ∉ t.map Row.miRNA_ID) :
    subset t k = [] := by
  refine List.filter_eq_nil_iff.mpr ?_
  intro r hr hrk
  exact h (List.mem_map.mpr ⟨r, hr, by simpa using hrk⟩)

theorem insertRow_map (ks : List String) (g : String → List (Option ℚ))
    (k : String) (v : Option ℚ) (hnd : ks.Nodup) :
    insertRow (ks.map (fun x => (x, g x))) k v
      = if k ∈ ks then
          ks.map (fun x => (x, if x = k then g x ++ [v] else g x))
        else ks.map (fun x => (x, g x)) ++ [(k, [v])] := by
  induction ks with
  | nil => simp [insertRow]
  | cons a t ih =>
    obtain ⟨hat, hnd'⟩ := List.nodup_cons.mp hnd
    rw [List.map_cons, insertRow]
    by_cases hak : a = k
    · subst hak
      rw [if_pos rfl, if_pos (List.mem_cons_self a t), List.map_cons, if_pos rfl]
      refine congrArg _ ?_
      refine (List.map_congr_left ?_)
      intro x hx
      have hxa : x ≠ a := fun hc => hat (hc ▸ hx)
      simp [hxa]
    · rw [if_neg hak, ih hnd']
      by_cases hkt : k ∈ t
      · rw [if_pos hkt, if_pos (List.mem_cons.mpr (Or.inr hkt)), List.map_cons,
          if_neg hak]
      · rw [if_neg hkt, if_neg (by
            intro hc
            rcases List.mem_cons.mp hc with hc | hc
            · exact hak hc.symm
            · exact hkt hc),
          List.cons_append]

theorem colValues_append (a b : Table) :
    colValues (a ++ b) = colValues a ++ colValues b := by
  simp [colValues]

/-- One traversal building the key-to-accumulator index yields, for each
distinct key in first-seen order, exactly that key's value-column entries. -/
theorem groupIndex_spec (t : Table) :
    groupIndex t
      = (uniqueKeys (t.map Row.miRNA_ID)).map
          (fun k => (k, colValues (subset t k))) := by
  induction t using List.reverseRecOn with
  | nil => simp [groupIndex, uniqueKeys]
  | append_singleton t r ih =>
    have hfold : groupIndex (t ++ [r])
        = insertRow (groupIndex t) r.miRNA_ID r.reads_per_million_miRNA_mapped := by
      simp [groupIndex, List.foldl_append]
    rw [hfold, ih,
      insertRow_map _ _ _ _ (uniqueKeys_nodup _),
      List.map_append]
    simp only [List.map_cons, List.map_nil]
    rw [uniqueKeys_append_singleton]
    by_cases hmem : r.miRNA_ID ∈ t.map Row.miRNA_ID
    · rw [if_pos ((mem_uniqueKeys _ _).mpr hmem), if_pos hmem]
      refine List.map_congr_left ?_
      intro x hx
      rw [subset_append_singleton, colValues_append]
      by_cases hxr : x = r.miRNA_ID
      · subst hxr
        simp [colValues]
      · have : (r.miRNA_ID == x) = false := by
          simp
          exact fun hc => hxr hc.symm
        simp [this, hxr, colValues]
    · rw [if_neg (fun hc => hmem ((mem_uniqueKeys _ _).mp hc)), if_neg hmem,
        List.map_append]
      refine congrArg₂ _ ?_ ?_
      · refine List.map_congr_left ?_
        intro x hx
        have hxmem : x ∈ t.map Row.miRNA_ID := (mem_uniqueKeys _ _).mp hx
        have hxr : (r.miRNA_ID == x) = false := by
          simp
          intro hc
          exact hmem (hc ▸ hxmem)
        rw [subset_append_singleton, colValues_append, hxr]
        simp [colValues]
      · rw [List.map_cons, List.map_nil]
        rw [subset_append_singleton, colValues_append,
          subset_eq_nil_of_not_mem t _ hmem]
        simp [colValues]

/-- C9: the single-pass grouped reduction (one traversal building a
key-to-accumulator index, then reducing each bucket) produces the same
output table as the implemented per-key rescanning loop. -/
theorem C9_single_pass_equals_per_key_rescan (dataset : Table) :
    singlePassAggregate dataset
      = calculate_average_and_variance_mirna_expression dataset := by
  unfold singlePassAggregate calculate_average_and_variance_mirna_expression
  rw [groupIndex_spec, List.map_map]
  rfl
